import Mathlib

/-!
Verification of the knowledge-base-search-engine RAG pipeline
(src/app/utils.py, src/app/rag.py) against its specification.

Python strings are modelled as lists of characters (`Str`); the whitespace
class is modelled on the ASCII range (space, tab, newline, carriage return,
vertical tab, form feed), which covers every character these claims touch.
Collaborators (Gemini embeddings/generation, the MongoDB store) are modelled
as explicit function arguments, and the calls issued to them are returned as
traces, so that ordering and atomicity properties are statable.
-/

namespace KB


/-- Python `str` modelled as a list of characters. -/
abbrev Str := List Char

/-- Shorthand turning a Lean string literal into the `Str` model. -/
def str (s : String) : Str := s.toList

/-- The whitespace class used by `re.compile(r"\s+")` and `str.strip()`,
on the ASCII range: space, tab, newline, carriage return, vertical tab,
form feed. -/
def isSpaceChar (c : Char) : Bool :=
  c = ' ' || c = '\t' || c = '\n' || c = '\r' || c = Char.ofNat 11 || c = Char.ofNat 12

/-- Python `str.strip()`: drop leading and trailing whitespace. -/
def pyStrip (s : Str) : Str :=
  ((s.dropWhile isSpaceChar).reverse.dropWhile isSpaceChar).reverse

/-- The substitution `WHITESPACE_RE.sub(" ", txt)` from src/app/utils.py:
every maximal run of whitespace characters is replaced by a single space. -/
def collapseWs : Str → Str
  | [] => []
  | c :: rest =>
      if isSpaceChar c then ' ' :: collapseWs (rest.dropWhile isSpaceChar)
      else c :: collapseWs rest
termination_by l => l.length
decreasing_by
  · have h := (List.dropWhile_suffix (l := rest) isSpaceChar).sublist.length_le
    simp only [List.length_cons]
    omega
  · simp

/-- `clean_text` from src/app/utils.py: `WHITESPACE_RE.sub(" ", txt).strip()`. -/
def clean_text (s : Str) : Str := pyStrip (collapseWs s)

/-- Python `str(n)` for a natural number (decimal digits). -/
def natToStr (n : Nat) : Str := Nat.toDigits 10 n

/-- The body of the `while start < n` loop of `chunk_text`
(src/app/utils.py): at offset `start`, emit `text[start:end]` with
`end = min(start + chunk_size, n)`; stop when `end == n`, otherwise
continue from `max(0, end - overlap)`.  The loop is given explicit fuel;
`none` models a run of the loop that performed `fuel` iterations without
terminating. -/
def chunkLoop (t : Str) (chunk_size overlap : Nat) : Nat → Nat → Option (List Str)
  | _, 0 => none
  | start, fuel + 1 =>
      if start < t.length then
        let e := min (start + chunk_size) t.length
        let chunk := (t.drop start).take (e - start)
        if e = t.length then some [chunk]
        else
          match chunkLoop t chunk_size overlap (max 0 (e - overlap)) fuel with
          | none => none
          | some rest => some (chunk :: rest)
      else some []

/-- `chunk_text` from src/app/utils.py.  The source strips the text, returns
`[]` when the stripped text is empty, and otherwise runs the sliding-window
loop.  The loop advances `start` by at least one position per iteration
whenever `overlap < chunk_size`, so `length + 1` iterations always suffice
to model a terminating run; `none` models a call that never returns. -/
def chunk_text (text : Str) (chunk_size : Nat := 1200) (overlap : Nat := 200) :
    Option (List Str) :=
  let t := pyStrip text
  if t.isEmpty then some []
  else chunkLoop t chunk_size overlap 0 (t.length + 1)

/-- De-overlapped concatenation: keep the first chunk whole and drop the
first `overlap` characters of every later chunk, then concatenate. -/
def deOverlap (overlap : Nat) : List Str → Str
  | [] => []
  | c :: rest => c ++ (rest.map (List.drop overlap)).flatten


/-- A string is in normalized-whitespace form when every whitespace character
in it is a plain space and no two adjacent characters are both whitespace. -/
def NormWs (l : Str) : Prop :=
  (∀ c ∈ l, isSpaceChar c = true → c = ' ') ∧
    l.Chain' (fun a b => ¬(isSpaceChar a = true ∧ isSpaceChar b = true))


/-!
SHA-256, as used by `hashlib.sha256` in `deterministic_id`
(src/app/utils.py).  Words are naturals reduced modulo `2 ^ 32`;
messages and digests are lists of byte values.  Feeding the parts to
`m.update` one after another hashes the concatenation of their UTF-8
encodings, so the model hashes that concatenation directly.
-/

/-- Rotate a 32-bit word right by `n` bits. -/
def rotr (n x : Nat) : Nat := ((x >>> n) ||| (x <<< (32 - n))) % 2 ^ 32

def bsig0 (x : Nat) : Nat := rotr 2 x ^^^ rotr 13 x ^^^ rotr 22 x

def bsig1 (x : Nat) : Nat := rotr 6 x ^^^ rotr 11 x ^^^ rotr 25 x

def ssig0 (x : Nat) : Nat := rotr 7 x ^^^ rotr 18 x ^^^ (x >>> 3)

def ssig1 (x : Nat) : Nat := rotr 17 x ^^^ rotr 19 x ^^^ (x >>> 10)

/-- The 64 SHA-256 round constants of FIPS 180-4, in decimal. -/
def sha256K : List Nat :=
  [1116352408, 1899447441, 3049323471, 3921009573, 961987163, 1508970993,
   2453635748, 2870763221, 3624381080, 310598401, 607225278, 1426881987,
   1925078388, 2162078206, 2614888103, 3248222580, 3835390401, 4022224774,
   264347078, 604807628, 770255983, 1249150122, 1555081692, 1996064986,
   2554220882, 2821834349, 2952996808, 3210313671, 3336571891, 3584528711,
   113926993, 338241895, 666307205, 773529912, 1294757372, 1396182291,
   1695183700, 1986661051, 2177026350, 2456956037, 2730485921, 2820302411,
   3259730800, 3345764771, 3516065817, 3600352804, 4094571909, 275423344,
   430227734, 506948616, 659060556, 883997877, 958139571, 1322822218,
   1537002063, 1747873779, 1955562222, 2024104815, 2227730452, 2361852424,
   2428436474, 2756734187, 3204031479, 3329325298]

/-- The eight 32-bit working variables of the SHA-256 state. -/
structure H8 where
  a : Nat
  b : Nat
  c : Nat
  d : Nat
  e : Nat
  f : Nat
  g : Nat
  h : Nat

/-- The SHA-256 initial hash value of FIPS 180-4, in decimal. -/
def sha256Init : H8 :=
  ⟨1779033703, 3144134277, 1013904242, 2773480762, 1359893119, 2600822924,
   528734635, 1541459225⟩

/-- Big-endian packing of four bytes into one 32-bit word. -/
def toWord (a b c d : Nat) : Nat :=
  ((a % 256) <<< 24) ||| ((b % 256) <<< 16) ||| ((c % 256) <<< 8) ||| (d % 256)

/-- Group a byte list four at a time into big-endian words. -/
def bytesToWords : List Nat → List Nat
  | a :: b :: c :: d :: rest => toWord a b c d :: bytesToWords rest
  | _ => []

/-- One step of the message-schedule extension; `acc` holds the words
produced so far, newest first. -/
def scheduleStep (acc : List Nat) : List Nat :=
  ((ssig1 (acc.getD 1 0) + acc.getD 6 0 + ssig0 (acc.getD 14 0) + acc.getD 15 0)
    % 2 ^ 32) :: acc

def scheduleExtend : Nat → List Nat → List Nat
  | 0, acc => acc
  | n + 1, acc => scheduleExtend n (scheduleStep acc)

/-- The 64-word message schedule of one block given its first 16 words. -/
def schedule (w16 : List Nat) : List Nat :=
  (scheduleExtend 48 w16.reverse).reverse

/-- One SHA-256 compression round. -/
def sha256Round (st : H8) (k w : Nat) : H8 :=
  let t1 := (st.h + bsig1 st.e + ((st.e &&& st.f) ^^^ ((st.e ^^^ 0xffffffff) &&& st.g))
    + k + w) % 2 ^ 32
  let t2 := (bsig0 st.a + ((st.a &&& st.b) ^^^ (st.a &&& st.c) ^^^ (st.b &&& st.c)))
    % 2 ^ 32
  ⟨(t1 + t2) % 2 ^ 32, st.a, st.b, st.c, (st.d + t1) % 2 ^ 32, st.e, st.f, st.g⟩

/-- Compress one 64-byte block into the running hash value. -/
def processBlock (hv : H8) (block : List Nat) : H8 :=
  let st := (sha256K.zip (schedule (bytesToWords block))).foldl
    (fun s p => sha256Round s p.1 p.2) hv
  ⟨(hv.a + st.a) % 2 ^ 32, (hv.b + st.b) % 2 ^ 32, (hv.c + st.c) % 2 ^ 32,
   (hv.d + st.d) % 2 ^ 32, (hv.e + st.e) % 2 ^ 32, (hv.f + st.f) % 2 ^ 32,
   (hv.g + st.g) % 2 ^ 32, (hv.h + st.h) % 2 ^ 32⟩

/-- SHA-256 padding: a 0x80 byte, zeros to 56 mod 64, and the bit length
as eight big-endian bytes. -/
def padMessage (msg : List Nat) : List Nat :=
  msg ++ [0x80] ++ List.replicate ((64 - (msg.length + 9) % 64) % 64) 0 ++
    [(8 * msg.length >>> 56) % 256, (8 * msg.length >>> 48) % 256,
     (8 * msg.length >>> 40) % 256, (8 * msg.length >>> 32) % 256,
     (8 * msg.length >>> 24) % 256, (8 * msg.length >>> 16) % 256,
     (8 * msg.length >>> 8) % 256, (8 * msg.length) % 256]

def splitBlocksN : Nat → List Nat → List (List Nat)
  | 0, _ => []
  | n + 1, l => l.take 64 :: splitBlocksN n (l.drop 64)

/-- Split a padded message into its successive 64-byte blocks (the padded
length is always a positive multiple of 64). -/
def splitBlocks (l : List Nat) : List (List Nat) := splitBlocksN (l.length / 64) l

/-- Big-endian bytes of one 32-bit word. -/
def wordBytes (w : Nat) : List Nat :=
  [(w >>> 24) % 256, (w >>> 16) % 256, (w >>> 8) % 256, w % 256]

/-- The 32-byte digest read off the final state. -/
def digestBytes (hv : H8) : List Nat :=
  wordBytes hv.a ++ wordBytes hv.b ++ wordBytes hv.c ++ wordBytes hv.d ++
    wordBytes hv.e ++ wordBytes hv.f ++ wordBytes hv.g ++ wordBytes hv.h

/-- SHA-256 of a byte list, as a 32-entry byte list. -/
def sha256 (msg : List Nat) : List Nat :=
  digestBytes ((splitBlocks (padMessage msg)).foldl processBlock sha256Init)

/-- The hexadecimal alphabet of `hexdigest`. -/
def hexAlphabet : Str := str ("0123456789abcdef")

def hexDigit (n : Nat) : Char := hexAlphabet.getD n '0'

/-- Two hex characters of one byte, as in Python's `hexdigest`. -/
def byteToHex (b : Nat) : Str := [hexDigit (b / 16), hexDigit (b % 16)]

def hexOfBytes (bytes : List Nat) : Str := (bytes.map byteToHex).flatten

/-- UTF-8 encoding of one character. -/
def charUtf8 (c : Char) : List Nat :=
  if c.toNat < 0x80 then [c.toNat]
  else if c.toNat < 0x800 then
    [0xc0 ||| (c.toNat >>> 6), 0x80 ||| (c.toNat &&& 0x3f)]
  else if c.toNat < 0x10000 then
    [0xe0 ||| (c.toNat >>> 12), 0x80 ||| ((c.toNat >>> 6) &&& 0x3f),
     0x80 ||| (c.toNat &&& 0x3f)]
  else
    [0xf0 ||| (c.toNat >>> 18), 0x80 ||| ((c.toNat >>> 12) &&& 0x3f),
     0x80 ||| ((c.toNat >>> 6) &&& 0x3f), 0x80 ||| (c.toNat &&& 0x3f)]

/-- UTF-8 encoding of a string. -/
def utf8Encode (s : Str) : List Nat := (s.map charUtf8).flatten

/-- `deterministic_id` from src/app/utils.py: SHA-256 over the UTF-8
encodings of the parts fed in order (`m.update(str(p).encode("utf-8"))`
for each part hashes their concatenation), hex digest truncated to its
first 16 characters. -/
def deterministic_id (parts : List Str) : Str :=
  (hexOfBytes (sha256 ((parts.map utf8Encode).flatten))).take 16

/-- The chunk id computed in `upsert_chunks` (src/app/rag.py):
`deterministic_id(doc_id, str(page), text[:64])`. -/
def chunkId (doc_id : Str) (page : Nat) (text : Str) : Str :=
  deterministic_id [doc_id, natToStr page, text.take 64]


/-- Embedding vectors: opaque numeric data for these claims, never computed
with, only passed through. -/
abbrev Vec := List Int

/-- Similarity scores, likewise only passed through. -/
abbrev Score := Rat

/-- The optional metadata sub-document of a stored chunk or retrieval hit. -/
structure ChunkMeta where
  doc_name : Option Str
  page : Option Nat
deriving DecidableEq

/-- A retrieval hit as consumed by `build_context` and `synthesize_answer`:
a store document whose text, metadata and score fields may each be absent. -/
structure Hit where
  text : Option Str
  metadata : Option ChunkMeta
  score : Option Score
deriving DecidableEq

/-- One `UpdateOne` document built by `upsert_chunks`: the upsert filter is
`(doc_id, chunk_id)` and the remaining fields are the `$set` payload. -/
structure UpsertOp where
  doc_id : Str
  chunk_id : Str
  text : Str
  embedding : Vec
  meta_doc_name : Str
  meta_page : Nat
deriving DecidableEq

/-- `upsert_chunks` from src/app/rag.py.  The embedding collaborator is the
`embed` argument (`embed_texts`, which raises before any network call when
the API key is missing); the returned second component is the list of
`bulk_write` calls issued to the store collection. -/
def upsert_chunks {E : Type} (doc_id doc_name : Str) (chunks : List (Nat × Str))
    (embed : List Str → Except E (List Vec)) :
    Except E Nat × List (List UpsertOp) :=
  if chunks.isEmpty then (Except.ok 0, [])
  else
    match embed (chunks.map Prod.snd) with
    | Except.error e => (Except.error e, [])
    | Except.ok vecs =>
        let ops : List UpsertOp := (chunks.zip vecs).map fun pe =>
          ⟨doc_id, chunkId doc_id pe.1.1 pe.1.2, pe.1.2, pe.2, doc_name, pe.1.1⟩
        (Except.ok ops.length, if ops.isEmpty then [] else [ops])

/-- One `$vectorSearch` aggregation stage as issued by `vector_search`. -/
structure VSQuery where
  index : Str
  qvec : Vec
  numCandidates : Nat
  limit : Nat
deriving DecidableEq

/-- `vector_search` from src/app/rag.py: embed `clean_text(query)`, then run
the `$vectorSearch` pipeline with index "default",
`numCandidates = max(50, k * 10)` and `limit = k`.  Returns the result
(hits, or the embedding failure) together with the embedding requests and
the store queries issued. -/
def vector_search {E : Type} (query : Str) (k : Nat)
    (embed : Str → Except E Vec) (store : VSQuery → List Hit) :
    Except E (List Hit) × List Str × List VSQuery :=
  match embed (clean_text query) with
  | Except.error e => (Except.error e, [clean_text query], [])
  | Except.ok qvec =>
      (Except.ok (store ⟨str ("default"), qvec, max 50 (k * 10), k⟩),
       [clean_text query], [⟨str ("default"), qvec, max 50 (k * 10), k⟩])

/-- The loop of `build_context` (src/app/rag.py) rendering one block per
hit: metadata defaults to the empty document, doc_name to "Doc", page to
"?", text to the empty string. -/
def buildContextParts : List Hit → List Str
  | [] => []
  | r :: rs =>
      (str ("[Source: ") ++ (r.metadata.getD ⟨none, none⟩).doc_name.getD (str ("Doc")) ++
        str (", Page ") ++
        (match (r.metadata.getD ⟨none, none⟩).page with
         | some p => natToStr p
         | none => str ("?")) ++ str ("]") ++ str ("\n") ++ r.text.getD []) ::
      buildContextParts rs

/-- `build_context` from src/app/rag.py: the rendered blocks joined by a
blank line. -/
def build_context (results : List Hit) : Str :=
  List.intercalate (str ("\n\n")) (buildContextParts results)

/-- One block as the claim words it: header line without brackets. -/
def claimBlock (r : Hit) : Str :=
  str ("Source: ") ++ (r.metadata.getD ⟨none, none⟩).doc_name.getD (str ("Doc")) ++
    str (", Page ") ++
    (match (r.metadata.getD ⟨none, none⟩).page with
     | some p => natToStr p
     | none => str ("?")) ++ str ("\n") ++ r.text.getD []

/-- The claim's reading of `build_context`: bracket-less header blocks
joined by a blank line. -/
def buildContextClaimed (results : List Hit) : Str :=
  List.intercalate (str ("\n\n")) (results.map claimBlock)

/-- One block as the code renders it: header line `[Source: d, Page p]`,
a newline, then the hit's raw text. -/
def renderedBlock (r : Hit) : Str :=
  str ("[Source: ") ++ (r.metadata.getD ⟨none, none⟩).doc_name.getD (str ("Doc")) ++
    str (", Page ") ++
    (match (r.metadata.getD ⟨none, none⟩).page with
     | some p => natToStr p
     | none => str ("?")) ++ str ("]") ++ str ("\n") ++ r.text.getD []

/-- `SYSTEM_RAG_INSTRUCTIONS` from src/app/prompts.py. -/
def SYSTEM_RAG_INSTRUCTIONS : Str :=
  str ("You are a precise, citation-focused assistant. Answer ONLY from the provided context. If the answer is not in context, say you don't know. Provide short, clear answers first, then a concise explanation. Cite sources by (Doc, Page) when possible.")

/-- The single-turn prompt built by `synthesize_answer`. -/
def synthPrompt (question : Str) (results : List Hit) : Str :=
  SYSTEM_RAG_INSTRUCTIONS ++
    str ("\n\nUsing ONLY the context below, answer succinctly.\n\n") ++
    str ("# Question\n") ++ question ++ str ("\n\n# Context\n") ++
    build_context results

/-- One entry of the sources list of a query result. -/
structure SourceEntry where
  doc : Option Str
  page : Option Nat
  score : Score
deriving DecidableEq

/-- The `{answer, sources}` dict returned by `synthesize_answer`. -/
structure SynthResult where
  answer : Str
  sources : List SourceEntry
deriving DecidableEq

/-- The source entry built from one hit by `synthesize_answer`: metadata
fields looked up with no default (absent maps to none), score defaulting
to 0.0. -/
def sourceOfHit (r : Hit) : SourceEntry :=
  ⟨(r.metadata.getD ⟨none, none⟩).doc_name, (r.metadata.getD ⟨none, none⟩).page,
   r.score.getD 0⟩

/-- `synthesize_answer` from src/app/rag.py.  The generative collaborator is
the `gen` argument; `none` models a response with no text, and
`getattr(resp, "text", "") or ""` maps it to the empty string. -/
def synthesize_answer (question : Str) (results : List Hit)
    (gen : Str → Option Str) : SynthResult :=
  ⟨(gen (synthPrompt question results)).getD [], results.map sourceOfHit⟩

/-- `rag_query` from src/app/rag.py: retrieval followed by synthesis, with
retrieval failures propagating. -/
def rag_query {E : Type} (question : Str) (k : Nat) (embed : Str → Except E Vec)
    (store : VSQuery → List Hit) (gen : Str → Option Str) : Except E SynthResult :=
  match (vector_search question k embed store).1 with
  | Except.error e => Except.error e
  | Except.ok hits => Except.ok (synthesize_answer question hits gen)

/-- An embedding collaborator that always fails, as when the API key is
absent. -/
def embedFailUnit : List Str → Except Unit (List Vec) := fun _ => Except.error ()

/-- An embedding collaborator that always answers with an empty vector. -/
def embedOkNil : Str → Except Unit Vec := fun _ => Except.ok []

/-- A store with no matching records. -/
def storeNoHits : VSQuery → List Hit := fun _ => []

/-- A concrete hit with document d, page 3, text t and no score. -/
def exHit : Hit := ⟨some (str ("t")), some ⟨some (str ("d")), some 3⟩, none⟩

/-- A generative collaborator that returns no text. -/
def genNoText : Str → Option Str := fun _ => none


lemma pyStrip_eq_rdropWhile (l : Str) :
    pyStrip l = List.rdropWhile isSpaceChar (l.dropWhile isSpaceChar) := rfl

lemma dropWhile_head_not {l : Str} {c : Char}
    (h : (l.dropWhile isSpaceChar).head? = some c) : isSpaceChar c = false := by
  induction l with
  | nil => simp [List.dropWhile] at h
  | cons a t ih =>
      by_cases ha : isSpaceChar a = true
      · rw [List.dropWhile_cons_of_pos ha] at h
        exact ih h
      · rw [List.dropWhile_cons_of_neg ha] at h
        simp at h
        rw [← h]
        simpa using ha

lemma dropWhile_of_head_false {l : Str}
    (h : ∀ c, l.head? = some c → isSpaceChar c = false) :
    l.dropWhile isSpaceChar = l := by
  match l with
  | [] => rfl
  | a :: t => rw [List.dropWhile_cons_of_neg (by simp [h a rfl])]

lemma pyStrip_idem (l : Str) : pyStrip (pyStrip l) = pyStrip l := by
  simp only [pyStrip_eq_rdropWhile]
  have hdW : List.dropWhile isSpaceChar
      (List.rdropWhile isSpaceChar (l.dropWhile isSpaceChar)) =
      List.rdropWhile isSpaceChar (l.dropWhile isSpaceChar) := by
    apply dropWhile_of_head_false
    intro c hc
    obtain ⟨t, ht⟩ :=
      List.rdropWhile_prefix isSpaceChar (l.dropWhile isSpaceChar)
    cases hXe : List.rdropWhile isSpaceChar (l.dropWhile isSpaceChar) with
    | nil => rw [hXe] at hc; simp at hc
    | cons a u =>
        rw [hXe] at hc ht
        simp at hc
        subst hc
        apply dropWhile_head_not (l := l)
        rw [← ht]
        simp
  rw [hdW, List.rdropWhile_idempotent]

lemma normWs_head_not_space {l : Str} (h : NormWs l) :
    ∀ c d rest, l = c :: d :: rest → isSpaceChar c = true → isSpaceChar d = false := by
  intro c d rest hl hc
  subst hl
  have := (List.chain'_cons.mp h.2).1
  by_contra hd
  exact this ⟨hc, by revert hd; cases isSpaceChar d <;> simp⟩

lemma normWs_tail {c : Char} {l : Str} (h : NormWs (c :: l)) : NormWs l :=
  ⟨fun x hx => h.1 x (List.mem_cons_of_mem c hx), (List.chain'_cons'.mp h.2).2⟩

lemma collapseWs_head_not_space :
    ∀ (l : Str), (∀ c, l.head? = some c → isSpaceChar c = false) →
      ∀ d, (collapseWs l).head? = some d → isSpaceChar d = false := by
  intro l hl d hd
  match l with
  | [] => simp [collapseWs] at hd
  | c :: rest =>
      have hc := hl c rfl
      rw [collapseWs, if_neg (by simp [hc])] at hd
      simp at hd
      rw [← hd]
      exact hc

lemma collapseWs_normWs : ∀ (l : Str), NormWs (collapseWs l) := by
  intro l
  induction l using collapseWs.induct with
  | case1 => exact ⟨by simp [collapseWs], by simp [collapseWs]⟩
  | case2 c rest hc ih =>
      rw [collapseWs, if_pos hc]
      constructor
      · intro x hx hxs
        rcases List.mem_cons.mp hx with h | h
        · exact h
        · exact ih.1 x h hxs
      · rw [List.chain'_cons']
        refine ⟨?_, ih.2⟩
        intro y hy
        have : isSpaceChar y = false := by
          refine collapseWs_head_not_space _ ?_ y hy
          intro e he
          exact dropWhile_head_not he
        simp [this]
  | case3 c rest hc ih =>
      rw [collapseWs, if_neg hc]
      constructor
      · intro x hx hxs
        rcases List.mem_cons.mp hx with h | h
        · exfalso
          rw [h] at hxs
          simp [hxs] at hc
        · exact ih.1 x h hxs
      · rw [List.chain'_cons']
        refine ⟨?_, ih.2⟩
        intro y hy
        intro hand
        rcases hand with ⟨h1, _⟩
        simp [h1] at hc

lemma collapseWs_of_normWs : ∀ (l : Str), NormWs l → collapseWs l = l := by
  intro l
  induction l using collapseWs.induct with
  | case1 => intro _; simp [collapseWs]
  | case2 c rest hc ih =>
      intro h
      have hcs : c = ' ' := h.1 c (List.mem_cons_self c rest) hc
      have hdrop : rest.dropWhile isSpaceChar = rest := by
        match rest with
        | [] => rfl
        | d :: rest' =>
            have hd := normWs_head_not_space h c d rest' rfl hc
            rw [List.dropWhile_cons_of_neg (by simp [hd])]
      rw [collapseWs, if_pos hc, hdrop]
      rw [hdrop] at ih
      rw [ih (normWs_tail h), hcs]
  | case3 c rest hc ih =>
      intro h
      rw [collapseWs, if_neg hc, ih (normWs_tail h)]

lemma normWs_append_right {xs ys : Str} (h : NormWs (xs ++ ys)) : NormWs ys :=
  ⟨fun c hc => h.1 c (List.mem_append_right xs hc), (List.chain'_append.mp h.2).2.1⟩

lemma normWs_append_left {xs ys : Str} (h : NormWs (xs ++ ys)) : NormWs xs :=
  ⟨fun c hc => h.1 c (List.mem_append_left ys hc), (List.chain'_append.mp h.2).1⟩

lemma normWs_pyStrip {l : Str} (h : NormWs l) : NormWs (pyStrip l) := by
  rw [pyStrip_eq_rdropWhile]
  obtain ⟨t1, ht1⟩ := List.dropWhile_suffix (l := l) isSpaceChar
  have h1 : NormWs (l.dropWhile isSpaceChar) := by
    rw [← ht1] at h
    exact normWs_append_right h
  obtain ⟨t2, ht2⟩ :=
    List.rdropWhile_prefix isSpaceChar (l.dropWhile isSpaceChar)
  rw [← ht2] at h1
  exact normWs_append_left h1

/-- C9: `clean_text` is idempotent — cleaning already-cleaned text changes
nothing, because the first pass leaves only isolated single spaces and no
leading or trailing whitespace. -/
theorem clean_text_idempotent (s : Str) : clean_text (clean_text s) = clean_text s := by
  show pyStrip (collapseWs (pyStrip (collapseWs s))) = pyStrip (collapseWs s)
  rw [collapseWs_of_normWs _ (normWs_pyStrip (collapseWs_normWs s)), pyStrip_idem]


lemma chunkLoop_spec (t : Str) (cs ov : Nat) (hov : ov < cs) :
    ∀ fuel start, start < t.length → t.length - start ≤ fuel →
    ∃ c rest, chunkLoop t cs ov start fuel = some (c :: rest) ∧
      deOverlap ov (c :: rest) = t.drop start ∧
      ((c :: rest).map (List.drop ov)).flatten = t.drop (start + ov) ∧
      (∀ x ∈ c :: rest, x.length ≤ cs) ∧
      (∃ z, (c :: rest).getLast? = some z ∧ ∃ pre, pre ++ z = t) := by
  intro fuel
  induction fuel with
  | zero => intro start h1 h2; omega
  | succ fuel ih =>
      intro start h1 h2
      by_cases hend : min (start + cs) t.length = t.length
      · have hn : t.length ≤ start + cs := by omega
        have chunk_eq : (t.drop start).take (min (start + cs) t.length - start) =
            t.drop start := by
          rw [hend]
          apply List.take_of_length_le
          rw [List.length_drop]
        refine ⟨t.drop start, [], ?_, ?_, ?_, ?_, ?_⟩
        · rw [chunkLoop, if_pos h1, if_pos hend, chunk_eq]
        · simp [deOverlap]
        · simp [List.drop_drop]
        · intro x hx
          rcases List.mem_singleton.mp hx with h
          rw [h, List.length_drop]
          omega
        · exact ⟨t.drop start, by simp, t.take start, List.take_append_drop start t⟩
      · have hlt : start + cs < t.length := by omega
        have he : min (start + cs) t.length = start + cs := by omega
        have hcseq : min (start + cs) t.length - start = cs := by omega
        have hstart' : max 0 (min (start + cs) t.length - ov) = start + (cs - ov) := by
          rw [he, Nat.zero_max]
          omega
        obtain ⟨c', rest', heq', hde', hg', hlen', hlast'⟩ :=
          ih (start + (cs - ov)) (by omega) (by omega)
        have hsum : start + (cs - ov) + ov = start + cs := by omega
        refine ⟨(t.drop start).take cs, c' :: rest', ?_, ?_, ?_, ?_, ?_⟩
        · rw [chunkLoop, if_pos h1, if_neg hend, hstart', heq', hcseq]
        · show (t.drop start).take cs ++ ((c' :: rest').map (List.drop ov)).flatten =
            t.drop start
          rw [hg', hsum, ← List.drop_drop cs start t, List.take_append_drop]
        · show ((t.drop start).take cs).drop ov ++
              ((c' :: rest').map (List.drop ov)).flatten = t.drop (start + ov)
          rw [hg', hsum, List.drop_take cs ov, List.drop_drop ov start t]
          have hrest : t.drop (start + cs) =
              (t.drop (start + ov)).drop (cs - ov) := by
            rw [List.drop_drop]
            congr 1
            omega
          rw [hrest, List.take_append_drop]
        · intro x hx
          rcases List.mem_cons.mp hx with h | h
          · rw [h]
            exact List.length_take_le cs (t.drop start)
          · exact hlen' x h
        · obtain ⟨z, hz, pre, hpre⟩ := hlast'
          refine ⟨z, ?_, pre, hpre⟩
          rw [List.getLast?_cons_cons]
          exact hz

/-- C1 counterexample: `chunk_text` strips its input first, so for the
two-character text a-space, with the stated parameters 1200/200, the
de-overlapped concatenation of the returned chunks is the stripped text,
not the original text. -/
theorem chunk_text_counterexample :
    chunk_text ['a', ' '] 1200 200 = some [['a']] ∧
    deOverlap 200 [['a']] ≠ ['a', ' '] :=
  ⟨by decide, by decide⟩

/-- C1 amended: for `0 < chunk_size` and `overlap < chunk_size`, the loop of
`chunk_text` terminates and the chunks, de-overlapped and concatenated,
reconstruct the stripped input text `text.strip()` (which equals the original
text whenever it has no leading or trailing whitespace); no chunk is longer
than `chunk_size`, and the last chunk is a suffix of the stripped text, so
it ends exactly at its final position. -/
theorem chunk_text_coverage (text : Str) (chunk_size overlap : Nat)
    (hov : overlap < chunk_size) :
    ∃ chunks, chunk_text text chunk_size overlap = some chunks ∧
      deOverlap overlap chunks = pyStrip text ∧
      (∀ c ∈ chunks, c.length ≤ chunk_size) ∧
      (∀ z, chunks.getLast? = some z → ∃ pre, pre ++ z = pyStrip text) := by
  by_cases ht : (pyStrip text).isEmpty
  · refine ⟨[], ?_, ?_, by simp, by simp⟩
    · rw [chunk_text, if_pos ht]
    · rw [List.isEmpty_iff] at ht
      simp [deOverlap, ht]
  · have hne : 0 < (pyStrip text).length := by
      rw [List.isEmpty_iff] at ht
      cases h : pyStrip text with
      | nil => exact absurd h ht
      | cons a l => simp [h]
    obtain ⟨c, rest, heq, hde, _, hlen, hlast⟩ :=
      chunkLoop_spec (pyStrip text) chunk_size overlap hov
        ((pyStrip text).length + 1) 0 hne (by omega)
    refine ⟨c :: rest, ?_, ?_, hlen, ?_⟩
    · rw [chunk_text, if_neg ht]
      exact heq
    · rw [hde, List.drop_zero]
    · intro z hz
      obtain ⟨z', hz', pre, hpre⟩ := hlast
      rw [hz'] at hz
      injection hz with hzz
      exact ⟨pre, by rw [← hzz]; exact hpre⟩

/-- C1 witness: Scenario A of the spec, text abcdefghij with
chunk_size 4, overlap 1. -/
theorem chunk_text_coverage_witness :
    1 < 4 ∧
    ∃ chunks, chunk_text ['a','b','c','d','e','f','g','h','i','j'] 4 1 = some chunks ∧
      deOverlap 1 chunks = pyStrip ['a','b','c','d','e','f','g','h','i','j'] ∧
      (∀ c ∈ chunks, c.length ≤ 4) ∧
      (∀ z, chunks.getLast? = some z →
        ∃ pre, pre ++ z = pyStrip ['a','b','c','d','e','f','g','h','i','j']) :=
  ⟨by decide, chunk_text_coverage ['a','b','c','d','e','f','g','h','i','j'] 4 1 (by decide)⟩

lemma chunkLoop_stuck : ∀ fuel, chunkLoop ['a','a','a','a','a'] 2 2 0 fuel = none := by
  intro fuel
  induction fuel with
  | zero => rfl
  | succ fuel ih =>
      rw [chunkLoop]
      norm_num
      rw [ih]

/-- C2: the source of `chunk_text` neither rejects nor clamps
`overlap >= chunk_size`; on the five-character text aaaaa with
`chunk_size = 2` and `overlap = 2` the loop re-enters with the same
`start = 0` forever, so no amount of fuel makes it terminate — the spec
requires the parameters to be rejected or clamped, and the code instead
fails to terminate. -/
theorem chunk_text_diverges_on_overlap_eq_chunk_size :
    chunk_text ['a','a','a','a','a'] 2 2 = none ∧
    ∀ fuel, chunkLoop ['a','a','a','a','a'] 2 2 0 fuel = none :=
  ⟨by rw [chunk_text]; exact chunkLoop_stuck 6, chunkLoop_stuck⟩


lemma hexDigit_mem (n : Nat) : hexDigit n ∈ hexAlphabet := by
  rcases Nat.lt_or_ge n 16 with h | h
  · interval_cases n <;> decide
  · have hlen : hexAlphabet.length = 16 := by decide
    have : hexAlphabet.getD n '0' = '0' := by
      apply List.getD_eq_default
      omega
    rw [hexDigit, this]
    decide

lemma hexOfBytes_mem {bytes : List Nat} {c : Char}
    (h : c ∈ hexOfBytes bytes) : c ∈ hexAlphabet := by
  induction bytes with
  | nil => simp [hexOfBytes] at h
  | cons b rest ih =>
      rw [hexOfBytes, List.map_cons, List.flatten_cons] at h
      rcases List.mem_append.mp h with h' | h'
      · simp [byteToHex] at h'
        rcases h' with h'' | h''
        · rw [h'']
          exact hexDigit_mem (b / 16)
        · rw [h'']
          exact hexDigit_mem (b % 16)
      · exact ih h'

lemma hexOfBytes_length (bytes : List Nat) :
    (hexOfBytes bytes).length = 2 * bytes.length := by
  induction bytes with
  | nil => rfl
  | cons b rest ih =>
      rw [hexOfBytes, List.map_cons, List.flatten_cons, List.length_append] at *
      rw [ih]
      simp [byteToHex]
      omega

lemma sha256_length (msg : List Nat) : (sha256 msg).length = 32 := by
  rw [sha256, digestBytes]
  simp [wordBytes]

lemma deterministic_id_length (parts : List Str) :
    (deterministic_id parts).length = 16 := by
  rw [deterministic_id, List.length_take, hexOfBytes_length, sha256_length]
  decide

/-- C8: `deterministic_id` is a pure function of its part list — calling it
twice on the same parts gives the same result — the result is always a
16-character hexadecimal string, and the id is order-sensitive: swapping
the parts a and b changes it. -/
theorem deterministic_id_props :
    (∀ parts : List Str, deterministic_id parts = deterministic_id parts ∧
      (deterministic_id parts).length = 16 ∧
      ∀ c ∈ deterministic_id parts, c ∈ hexAlphabet) ∧
    ∃ a b : Str, deterministic_id [a, b] ≠ deterministic_id [b, a] := by
  constructor
  · intro parts
    refine ⟨rfl, deterministic_id_length parts, ?_⟩
    intro c hc
    exact hexOfBytes_mem (List.take_subset 16 _ hc)
  · exact ⟨str ("a"), str ("b"), by decide⟩

/-- C8 witness: the properties evaluated on the concrete part list
a, b. -/
theorem deterministic_id_props_witness :
    deterministic_id [str ("a"), str ("b")] = deterministic_id [str ("a"), str ("b")] ∧
    (deterministic_id [str ("a"), str ("b")]).length = 16 ∧
    'f' ∈ deterministic_id [str ("a"), str ("b")] ∧ 'f' ∈ hexAlphabet :=
  ⟨(deterministic_id_props.1 [str ("a"), str ("b")]).1,
   (deterministic_id_props.1 [str ("a"), str ("b")]).2.1,
   by decide,
   (deterministic_id_props.1 [str ("a"), str ("b")]).2.2 'f' (by decide)⟩

lemma utf8Encode_flatten (ps : List Str) :
    (ps.map utf8Encode).flatten = utf8Encode ps.flatten := by
  induction ps with
  | nil => rfl
  | cons s rest ih =>
      rw [List.map_cons, List.flatten_cons, List.flatten_cons, ih]
      rw [utf8Encode, utf8Encode, utf8Encode, List.map_append, List.flatten_append]

/-- C10: `deterministic_id` hashes the undelimited concatenation of its
parts, so two part lists with the same concatenation get the same id —
only the concatenated string, not the split into parts, matters. -/
theorem deterministic_id_concat (ps qs : List Str) (h : ps.flatten = qs.flatten) :
    deterministic_id ps = deterministic_id qs := by
  rw [deterministic_id, deterministic_id, utf8Encode_flatten, utf8Encode_flatten, h]

/-- C10 witness: the part lists ab, c and a, bc share a concatenation and an
id. -/
theorem deterministic_id_concat_witness :
    [str ("ab"), str ("c")].flatten = [str ("a"), str ("bc")].flatten ∧
    deterministic_id [str ("ab"), str ("c")] = deterministic_id [str ("a"), str ("bc")] :=
  ⟨by decide, deterministic_id_concat [str ("ab"), str ("c")] [str ("a"), str ("bc")] (by decide)⟩

/-- C4 counterexample: two chunk texts at the same page that differ only at
position 64 — beyond the hashed 64-character prefix — receive the same
`chunk_id`, so a changed chunk does not always get a new id and distinct
chunks at the same page do not always get distinct ids. -/
theorem chunk_id_counterexample :
    List.replicate 64 'a' ++ ['x'] ≠ List.replicate 64 'a' ++ ['y'] ∧
    chunkId (str ("d")) 1 (List.replicate 64 'a' ++ ['x']) =
      chunkId (str ("d")) 1 (List.replicate 64 'a' ++ ['y']) := by
  constructor
  · decide
  · have h : (List.replicate 64 'a' ++ ['x']).take 64 =
        (List.replicate 64 'a' ++ ['y']).take 64 := by decide
    rw [chunkId, chunkId, h]

/-- C4 amended: `chunk_id` is a deterministic function of `doc_id`, page and
the first 64 characters of the chunk text alone, so an unchanged chunk keeps
its id and a chunk whose first 64 characters agree with the old text keeps
it too; a change within the first 64 characters produces a different id
when the truncated hashes differ, as they do on the concrete texts x and
y. -/
theorem chunk_id_amended :
    (∀ d p t t', List.take 64 t = List.take 64 t' → chunkId d p t = chunkId d p t') ∧
    chunkId (str ("d")) 1 (str ("x")) ≠ chunkId (str ("d")) 1 (str ("y")) := by
  constructor
  · intro d p t t' h
    rw [chunkId, chunkId, h]
  · decide

/-- C4 witness: two texts agreeing on their first 64 characters, evaluated
through the amended theorem. -/
theorem chunk_id_amended_witness :
    (['p'] ++ List.replicate 70 'z').take 64 =
      (['p'] ++ List.replicate 70 'z' ++ ['q']).take 64 ∧
    chunkId (str ("doc")) 2 (['p'] ++ List.replicate 70 'z') =
      chunkId (str ("doc")) 2 (['p'] ++ List.replicate 70 'z' ++ ['q']) :=
  ⟨by decide,
   chunk_id_amended.1 (str ("doc")) 2 (['p'] ++ List.replicate 70 'z')
     (['p'] ++ List.replicate 70 'z' ++ ['q']) (by decide)⟩


/-- C3: if the embedding collaborator fails — unreachable, or misconfigured,
which raises on its first use inside `embed_texts` — `upsert_chunks`
propagates the failure and issues no `bulk_write`, so the stored chunk
collection is left completely unchanged. -/
theorem upsert_chunks_atomic {E : Type} (doc_id doc_name : Str)
    (chunks : List (Nat × Str)) (embed : List Str → Except E (List Vec)) (e : E)
    (hfail : embed (chunks.map Prod.snd) = Except.error e) :
    (upsert_chunks doc_id doc_name chunks embed).2 = [] ∧
    (chunks ≠ [] →
      (upsert_chunks doc_id doc_name chunks embed).1 = Except.error e) := by
  cases chunks with
  | nil => exact ⟨rfl, fun h => absurd rfl h⟩
  | cons c rest =>
      unfold upsert_chunks
      rw [hfail]
      simp

/-- C3 witness: a one-chunk document against the always-failing embedding
collaborator. -/
theorem upsert_chunks_atomic_witness :
    embedFailUnit ([(1, str ("x"))].map Prod.snd) = Except.error () ∧
    (upsert_chunks (str ("d")) (str ("n")) [(1, str ("x"))] embedFailUnit).2 = [] ∧
    (upsert_chunks (str ("d")) (str ("n")) [(1, str ("x"))] embedFailUnit).1 =
      Except.error () :=
  ⟨rfl,
   (upsert_chunks_atomic (str ("d")) (str ("n")) [(1, str ("x"))] embedFailUnit () rfl).1,
   (upsert_chunks_atomic (str ("d")) (str ("n")) [(1, str ("x"))] embedFailUnit () rfl).2
     (by simp)⟩

/-- C5 counterexample: for the empty question the query path issues an
embedding request (on the cleaned empty question) and a store query and
returns the store's answer — nothing is rejected before the collaborator
calls. -/
theorem empty_question_counterexample :
    (vector_search ([] : Str) 5 embedOkNil storeNoHits).2.1 ≠ [] ∧
    (vector_search ([] : Str) 5 embedOkNil storeNoHits).2.2 ≠ [] ∧
    (vector_search ([] : Str) 5 embedOkNil storeNoHits).1 = Except.ok [] := by
  refine ⟨?_, ?_, ?_⟩ <;> simp [vector_search, embedOkNil, storeNoHits]

/-- C5 amended: the query path performs no empty-question validation.  For
every question, the empty one included, `vector_search` issues exactly one
embedding request, on `clean_text(question)`; when the embedding succeeds
it issues exactly one store query — index "default",
`numCandidates = max(50, k*10)`, `limit = k` — and returns its hits, and
when the embedding fails the failure propagates with no store query. -/
theorem vector_search_no_validation {E : Type} (query : Str) (k : Nat)
    (embed : Str → Except E Vec) (store : VSQuery → List Hit) :
    (vector_search query k embed store).2.1 = [clean_text query] ∧
    (∀ v, embed (clean_text query) = Except.ok v →
      (vector_search query k embed store).2.2 =
        [⟨str ("default"), v, max 50 (k * 10), k⟩] ∧
      (vector_search query k embed store).1 =
        Except.ok (store ⟨str ("default"), v, max 50 (k * 10), k⟩)) ∧
    (∀ e, embed (clean_text query) = Except.error e →
      (vector_search query k embed store).1 = Except.error e ∧
      (vector_search query k embed store).2.2 = []) := by
  refine ⟨?_, ?_, ?_⟩
  · cases h : embed (clean_text query) <;> simp [vector_search, h]
  · intro v hv
    simp [vector_search, hv]
  · intro e he
    simp [vector_search, he]

/-- C5 witness: the empty question, embedded successfully, reaches the
store with the widened candidate pool. -/
theorem vector_search_no_validation_witness :
    embedOkNil (clean_text ([] : Str)) = Except.ok [] ∧
    (vector_search ([] : Str) 3 embedOkNil storeNoHits).2.2 =
      [⟨str ("default"), [], max 50 (3 * 10), 3⟩] :=
  ⟨rfl,
   ((vector_search_no_validation ([] : Str) 3 embedOkNil storeNoHits).2.1 []
     rfl).1⟩

/-- C6 counterexample: the code's header line carries square brackets,
`[Source: d, Page 3]`, so the rendered context differs from the claim's
bracket-less `Source: d, Page 3` reading on a concrete hit. -/
theorem build_context_counterexample :
    build_context [exHit] ≠ buildContextClaimed [exHit] ∧
    build_context [exHit] = str ("[Source: d, Page 3]\nt") :=
  ⟨by decide, by decide⟩

lemma buildContextParts_eq_map (results : List Hit) :
    buildContextParts results = results.map renderedBlock := by
  induction results with
  | nil => rfl
  | cons r rs ih => rw [buildContextParts, List.map_cons, ih]; rfl

/-- C6 amended: `build_context` renders, in the given order, one block per
hit — the header line `[Source: <doc_name>, Page <page>]` (with square
brackets), a newline, then the hit's raw text — joined by a blank-line
separator; missing doc_name, page or text fall back to "Doc", "?" and the
empty string, the function is total, and repeated sources are all
rendered. -/
theorem build_context_amended (results : List Hit) :
    build_context results =
      List.intercalate (str ("\n\n")) (results.map renderedBlock) := by
  rw [build_context, buildContextParts_eq_map]

/-- C7: `synthesize_answer` returns one `{doc, page, score}` source entry
per input hit, in the same order, taken directly and only from that hit's
metadata and score — no filtering or re-scoring against the generated
text — and when the generative collaborator returns no text (or empty
text) the answer field is the empty string rather than an exception. -/
theorem synthesize_answer_contract (question : Str) (results : List Hit)
    (gen : Str → Option Str) :
    (synthesize_answer question results gen).sources = results.map sourceOfHit ∧
    (synthesize_answer question results gen).sources.length = results.length ∧
    (gen (synthPrompt question results) = none →
      (synthesize_answer question results gen).answer = []) ∧
    (gen (synthPrompt question results) = some [] →
      (synthesize_answer question results gen).answer = []) := by
  refine ⟨rfl, by simp [synthesize_answer], ?_, ?_⟩ <;>
    intro h <;> simp [synthesize_answer, h]

/-- C7 witness: a no-text generation over one concrete hit. -/
theorem synthesize_answer_contract_witness :
    genNoText (synthPrompt [] [exHit]) = none ∧
    (synthesize_answer [] [exHit] genNoText).answer = [] ∧
    (synthesize_answer [] [exHit] genNoText).sources = [exHit].map sourceOfHit :=
  ⟨rfl, (synthesize_answer_contract [] [exHit] genNoText).2.2.1 rfl,
   (synthesize_answer_contract [] [exHit] genNoText).1⟩

end KB
